import Mathlib

/-!
Verification of the oceanstream hydroacoustic pipeline specification
against its source. Shallow embedding of the mask-orchestration
(denoise/applying_masks_handler.py), mask attachment (utils.py),
shoal connected-component extraction and metrics
(exports/shoals/shoal_process.py), frequency differencing
(exports/frequency_differencing_handler.py,
L3_regridded_data/frequency_differencing_handler.py) and interpolation
(L2_calibrated_data/sv_interpolation.py) modules.

Modelling conventions:
* xarray datasets are modelled as association lists or finite maps from
  variable names to data; python dicts as association lists in insertion
  order (python dicts iterate in insertion order).
* float samples are modelled as exact numbers; NaN (the missing-value
  sentinel) as `none` in `Option`.
* external library calls (echopype `apply_mask`, `frequency_differencing`,
  `remove_background_noise`, xarray `interpolate_na`, `haversine`,
  `compute_NASC`) are taken as function parameters of the embedding;
  `scipy.ndimage.label` is modelled explicitly below since claims
  quantify over its output.
* a raised python exception is modelled as `Except.error`; the
  sequence of external mask-application calls actually performed is
  returned alongside the result (on error: the calls performed before
  the raise) so that ordering claims are statable.
-/

namespace OceanStream

/-- Model of `db_to_linear` (sv_interpolation.py): converts decibel to
linear scale, `linear = 10 ** (db / 10)`; a missing sample (NaN,
modelled as `none`) propagates. -/
noncomputable def db_to_linear (x : Option ℝ) : Option ℝ :=
  x.map fun d => (10 : ℝ) ^ (d / 10)

/-- Model of `linear_to_db` (sv_interpolation.py): converts linear to
decibel scale, `db = 10 * log10 linear`; a missing sample propagates. -/
noncomputable def linear_to_db (x : Option ℝ) : Option ℝ :=
  x.map fun l => 10 * Real.logb 10 l

/-! ## Mask application ordering (denoise/applying_masks_handler.py)

A dataset is a list of named variables (the payload type `α` is
abstract: the claims hold for any mask data). The externals
`ep.mask.apply_mask` and
`background_noise_remover.apply_remove_background_noise` are parameters
`applyMask` and `removeBg`; `β` is the type of their parameter
sub-dictionaries. Results carry the list of processes actually applied
(in order of application). -/

structure DenoiseDS (α : Type) where
  vars : List (String × α)
deriving DecidableEq

/-- The `valid_processes` list of
`apply_selected_noise_masks_and_or_noise_removal`, in source order. -/
def valid_processes : List String :=
  ["mask_impulse", "mask_attenuation", "mask_transient",
   "remove_background_noise", "mask_false_seabed", "mask_seabed"]

/-- The five process names treated as attached boolean masks by the
noise pipeline (the inner membership list in the source). -/
def noise_mask_names : List String :=
  ["mask_impulse", "mask_attenuation", "mask_transient",
   "mask_false_seabed", "mask_seabed"]

/-- One iteration of the second loop of
`apply_selected_noise_masks_and_or_noise_removal`: if `process` is in
the request dict, apply it (a mask process is applied only when the
mask is an attached variable of the dataset, otherwise the source just
prints a message; `remove_background_noise` is a recomputation).
State is (dataset, trace of applied processes). -/
def applyNoiseStep {α β : Type} (applyMask : DenoiseDS α → α → β → DenoiseDS α)
    (removeBg : DenoiseDS α → β → DenoiseDS α)
    (processes_to_apply : List (String × β))
    (st : DenoiseDS α × List String) (process : String) :
    DenoiseDS α × List String :=
  match processes_to_apply.lookup process with
  | none => st
  | some params =>
    if process ∈ noise_mask_names then
      match st.1.vars.lookup process with
      | some mask_data => (applyMask st.1 mask_data params, st.2 ++ [process])
      | none => st
    else if process = "remove_background_noise" then
      (removeBg st.1 params, st.2 ++ [process])
    else st

/-- Model of `apply_selected_noise_masks_and_or_noise_removal`: first
every key of the request dict is validated against `valid_processes`
(the source raises `ValueError` on the first unexpected key, before any
application — hence the empty trace in the error); then the processes
are applied by iterating over `valid_processes` in its fixed order. -/
def apply_selected_noise_masks_and_or_noise_removal {α β : Type}
    (applyMask : DenoiseDS α → α → β → DenoiseDS α)
    (removeBg : DenoiseDS α → β → DenoiseDS α)
    (ds : DenoiseDS α) (processes_to_apply : List (String × β)) :
    Except (String × List String) (DenoiseDS α × List String) :=
  if processes_to_apply.all (fun kv => valid_processes.contains kv.1) then
    .ok (valid_processes.foldl
      (applyNoiseStep applyMask removeBg processes_to_apply) (ds, []))
  else
    .error ("Unexpected mask/process. Please refer to the function documentation for valid masks/processes.", [])

/-- The `recognized_masks` list of `apply_mask_organisms_in_order`. -/
def recognized_masks : List String :=
  ["mask_krill", "mask_gas_bearing_organisms",
   "mask_fluid_like_organisms", "mask_shoal"]

/-- Model of `apply_mask_organisms_in_order`: iterates over the request
dict in its own (insertion) order; an unrecognized key raises inside
the loop, after the preceding masks have already been applied (the
error carries the trace of applications performed before the raise).
For a recognized key the source reads `ds[mask_name]` (KeyError when
the mask is not attached) and calls `ep.mask.apply_mask` — the four
per-mask `elif` branches of the source are textually identical, so they
are embedded as one branch. -/
def organismsStep {α β : Type}
    (applyMask : DenoiseDS α → α → β → DenoiseDS α)
    (acc : Except (String × List String) (DenoiseDS α × List String))
    (kv : String × β) :
    Except (String × List String) (DenoiseDS α × List String) :=
  match acc with
  | .error e => .error e
  | .ok (ds, trace) =>
    if kv.1 ∈ recognized_masks then
      match ds.vars.lookup kv.1 with
      | some mask_data => .ok (applyMask ds mask_data kv.2, trace ++ [kv.1])
      | none => .error ("KeyError: " ++ kv.1, trace)
    else
      .error ("Unrecognized mask name. Please refer to the function documentation for valid masks", trace)

def apply_mask_organisms_in_order {α β : Type}
    (applyMask : DenoiseDS α → α → β → DenoiseDS α)
    (ds : DenoiseDS α) (processes_to_apply : List (String × β)) :
    Except (String × List String) (DenoiseDS α × List String) :=
  processes_to_apply.foldl (organismsStep applyMask) (.ok (ds, []))

/-- Concrete stand-ins used by the witnesses: an external
mask-application that returns the dataset unchanged, and small concrete
datasets. -/
def idApplyMask : DenoiseDS Unit → Unit → Unit → DenoiseDS Unit :=
  fun ds _ _ => ds

def idRemoveBg : DenoiseDS Unit → Unit → DenoiseDS Unit := fun ds _ => ds

def krillDS : DenoiseDS Unit := ⟨[("mask_krill", ())]⟩

def impulseSeabedDS : DenoiseDS Unit :=
  ⟨[("mask_impulse", ()), ("mask_seabed", ())]⟩

/-! ## Mask attachment (utils.py)

A mask is its boolean payload (shape and flattened values) plus its
metadata attributes. The dataset is modelled as the finite map from
variable names to variables that the xarray `Dataset` maintains;
`assign(mask=...)` followed by `rename({"mask": mask_name})` amounts to
updating the map at `mask_name` (dict-update semantics) and removing
the temporary key `"mask"`. -/

structure MaskVar where
  shape : List Nat
  vals : List Bool
  attrs : List (String × String)
deriving DecidableEq

structure SvDataset where
  getVar : String → Option MaskVar

/-- Model of `attach_mask_to_dataset` (utils.py): reads
`mask.attrs["mask_type"]` (KeyError when absent), attaches the mask
under the variable name `"mask_" ++ mask_type` with the mask's full
attributes, via assign-then-rename (so any pre-existing variable
literally named `"mask"` is consumed by the rename). -/
def attach_mask_to_dataset (Sv : SvDataset) (mask : MaskVar) :
    Except String SvDataset :=
  match mask.attrs.lookup "mask_type" with
  | none => .error "KeyError: mask_type"
  | some mask_type =>
      .ok ⟨fun name =>
        if name = "mask_" ++ mask_type then some mask
        else if name = "mask" then none
        else Sv.getVar name⟩

/-- Model of `attach_masks_to_dataset` (utils.py): left fold of
`attach_mask_to_dataset` over the mask list. -/
def attach_masks_to_dataset (Sv : SvDataset) (masks : List MaskVar) :
    Except String SvDataset :=
  masks.foldlM attach_mask_to_dataset Sv


/-- Concrete masks and dataset used by the C6 witness. -/
def seabedMaskA : MaskVar :=
  { shape := [2, 3], vals := [true, false, true, false, true, false]
    attrs := [("mask_type", "seabed"), ("method", "ariza"),
              ("parameters", "thr=-40")] }

def seabedMaskB : MaskVar :=
  { shape := [2, 3], vals := [false, false, false, false, false, false]
    attrs := [("mask_type", "seabed"), ("method", "blackwell"),
              ("parameters", "thr=-75")] }

def svDataset0 : SvDataset :=
  ⟨fun name =>
    if name = "Sv" then
      some { shape := [2, 3], vals := [true, true, true, true, true, true]
             attrs := [] }
    else none⟩

/-! ## Frequency differencing (exports/frequency_differencing_handler.py
and L3_regridded_data/frequency_differencing_handler.py)

`ep.mask.frequency_differencing` is the parameter
`frequency_differencing : String → M` on the channel-difference
expression string; `&` on masks is the parameter `andMask`. -/

/-- The expression string `f'"{chanA}" - "{chanB}" {op} {value}dB'`
built by both handlers. -/
def freq_diff_expr (chanA chanB op value : String) : String :=
  "\"" ++ chanA ++ "\" - \"" ++ chanB ++ "\" " ++ op ++ " " ++ value ++ "dB"

/-- Model of `find_mask_freq_diff`: if `single_operator` and
`single_value` are both provided the single form is used (the interval
parameters are not examined); otherwise if all four interval parameters
are provided the two interval masks are combined with `&`; otherwise
`ValueError`. -/
def find_mask_freq_diff {M : Type} (frequency_differencing : String → M)
    (andMask : M → M → M) (chanA chanB : String)
    (single_operator single_value interval_start_operator
     interval_start_value interval_end_operator interval_end_value :
       Option String) : Except String M :=
  match single_operator, single_value with
  | some op, some v =>
      .ok (frequency_differencing (freq_diff_expr chanA chanB op v))
  | _, _ =>
    match interval_start_operator, interval_start_value,
          interval_end_operator, interval_end_value with
    | some op1, some v1, some op2, some v2 =>
        .ok (andMask
          (frequency_differencing (freq_diff_expr chanA chanB op1 v1))
          (frequency_differencing (freq_diff_expr chanA chanB op2 v2)))
    | _, _, _, _ => .error "Invalid combination of parameters provided."

/-- Model of `apply_freq_diff` (L3 variant): same branch structure as
`find_mask_freq_diff` (the two sources are textually identical up to
the final line), then `ep.mask.apply_mask(ds, mask)` on the resulting
mask. -/
def apply_freq_diff {M D : Type} (frequency_differencing : String → M)
    (andMask : M → M → M) (apply_mask : D → M → D) (ds : D)
    (chanA chanB : String)
    (single_operator single_value interval_start_operator
     interval_start_value interval_end_operator interval_end_value :
       Option String) : Except String D :=
  (find_mask_freq_diff frequency_differencing andMask chanA chanB
      single_operator single_value interval_start_operator
      interval_start_value interval_end_operator
      interval_end_value).map (fun mask => apply_mask ds mask)

/-! ## Connected components (model of `scipy.ndimage.label`)

`shoal_process.py` labels the 3-D boolean volume `mask_shoal` with
`scipy.ndimage.label` under the default structuring element
(orthogonal, rank-1 connectivity). The labelling is modelled on an
arbitrary finite cell type `V` with a boolean adjacency: the connected
component of a cell is computed as the fixpoint of one-step closure,
and labels `1..n` are assigned to the distinct components of True
cells following a fixed enumeration of `V` (scipy's own label order is
an implementation detail no claim depends on). -/

section Components

variable {V : Type} [Fintype V] [DecidableEq V]

/-- One closure step: add every True cell adjacent to the current set. -/
def stepSet (g : V → Bool) (adj : V → V → Bool) (S : Finset V) : Finset V :=
  S ∪ Finset.univ.filter (fun d => g d = true ∧ ∃ c ∈ S, adj c d = true)

/-- The connected component of `x`: closure iterated to fixpoint
(`Fintype.card V` steps always suffice). -/
def component (g : V → Bool) (adj : V → V → Bool) (x : V) : Finset V :=
  (stepSet g adj)^[Fintype.card V] {x}

/-- One step of connectivity between True cells. -/
def ReachStep (g : V → Bool) (adj : V → V → Bool) (a b : V) : Prop :=
  g a = true ∧ g b = true ∧ adj a b = true

/-- Connectivity: reflexive-transitive closure of `ReachStep`. This is
the mathematical notion of "same connected True-region". -/
def Reaches (g : V → Bool) (adj : V → V → Bool) (x y : V) : Prop :=
  Relation.ReflTransGen (ReachStep g adj) x y

/-- The distinct components of True cells, in first-encounter order of
the cell enumeration `enum` (scipy scans in raster order). -/
def componentList (g : V → Bool) (adj : V → V → Bool) (enum : List V) :
    List (Finset V) :=
  enum.foldl
    (fun acc v =>
      if g v = true ∧ component g adj v ∉ acc then acc ++ [component g adj v]
      else acc)
    []

/-- Number of features found by the labelling (the second return value
of `scipy.ndimage.label`). -/
def numFeatures (g : V → Bool) (adj : V → V → Bool) (enum : List V) : Nat :=
  (componentList g adj enum).length

/-- The label array (the first return value of `scipy.ndimage.label`):
background (False) is 0, each True cell gets the 1-based index of its
component. -/
def labelArr (g : V → Bool) (adj : V → V → Bool) (enum : List V) (v : V) :
    Nat :=
  if g v = true then
    (componentList g adj enum).indexOf (component g adj v) + 1
  else 0

end Components

/-- A cell of the acoustic volume: (channel, ping_time, range_sample). -/
abbrev Cell (c p r : Nat) := Fin c × Fin p × Fin r

/-- Raster-order enumeration of the cells of a volume. -/
def cellList (c p r : Nat) : List (Cell c p r) :=
  (List.finRange c).flatMap fun a =>
    (List.finRange p).flatMap fun b =>
      (List.finRange r).map fun d => (a, b, d)

/-- Adjacency of two natural indices along one axis. -/
def natAdj (a b : Nat) : Prop := a + 1 = b ∨ b + 1 = a

instance (a b : Nat) : Decidable (natAdj a b) := by
  unfold natAdj
  exact inferInstance

/-- Rank-1 (orthogonal, 6-neighbour) adjacency of cells, the default
structuring element of `scipy.ndimage.label` on a 3-D input. -/
def cellAdj {c p r : Nat} (x y : Cell c p r) : Bool :=
  decide ((x.1 = y.1 ∧ x.2.1 = y.2.1 ∧ natAdj x.2.2.val y.2.2.val) ∨
          (x.1 = y.1 ∧ natAdj x.2.1.val y.2.1.val ∧ x.2.2 = y.2.2) ∨
          (natAdj x.1.val y.1.val ∧ x.2.1 = y.2.1 ∧ x.2.2 = y.2.2))

/-! ## Shoal processing (exports/shoals/shoal_process.py)

The Sv dataset carries the sample volume (rationals model the floats;
`none` is NaN), the attached `mask_shoal`, per-channel nominal
frequencies, the source filename stem, and the per-ping coordinates.
The externals `haversine` (great-circle distance in meters) and
`compute_per_dataset_nasc`'s per-channel NASC value are parameters. -/

structure ShoalDS (c p r : Nat) where
  sv : Cell c p r → Option ℚ
  mask_shoal : Cell c p r → Bool
  frequency_nominal : Fin c → ℚ
  filenameStem : String
  ping_time : Fin p → ℚ
  latitude : Fin p → ℚ
  longitude : Fin p → ℚ

/-- A single-shoal sub-mask: full-volume boolean data plus the `label`
attribute. -/
structure ShoalSubMask (c p r : Nat) where
  data : Cell c p r → Bool
  label : Nat

/-- Model of `split_shoal_mask`: label `mask_shoal`, then produce for
each `i` in `range(1, ls + 1)` the boolean sub-mask `la == i` (full
volume shape, same dims/coords) with `label` attribute `i`. -/
def split_shoal_mask {c p r : Nat} (ds : ShoalDS c p r) :
    List (ShoalSubMask c p r) :=
  let la := labelArr ds.mask_shoal cellAdj (cellList c p r)
  let ls := numFeatures ds.mask_shoal cellAdj (cellList c p r)
  (List.range ls).map fun i =>
    { data := fun cell => decide (la cell = i + 1), label := i + 1 }

/-- The flat per-(shoal, channel) metric record (`return_dict` of
`process_single_shoal_channel`); every field is optional so the
all-null placeholder of `process_shoals` is expressible. -/
structure ShoalRecord where
  label : Option Nat
  frequency : Option ℚ
  filename : Option String
  area : Option Nat
  bbox_0 : Option Nat
  bbox_1 : Option Nat
  bbox_2 : Option Nat
  bbox_3 : Option Nat
  centroid_0 : Option ℚ
  centroid_1 : Option ℚ
  Sv_mean : Option ℚ
  npings : Option Nat
  nsamples : Option Nat
  corrected_length : Option ℚ
  mean_range : Option ℚ
  start_range : Option Nat
  end_range : Option Nat
  start_time : Option ℚ
  end_time : Option ℚ
  start_lat : Option ℚ
  end_lat : Option ℚ
  start_lon : Option ℚ
  end_lon : Option ℚ
  nasc : Option ℚ
deriving DecidableEq

/-- Arithmetic mean of a list of rationals, `none` when empty
(models `mean(skipna=True)`, which is NaN on an all-NaN slice). -/
def rationalMean (l : List ℚ) : Option ℚ :=
  if l = [] then none else some (l.sum / l.length)

/-- The `area` metric of `process_single_shoal_channel`: the count of
True cells of the sub-mask in the given channel's slice (`mc.sum()` in
the source). -/
def channelArea {c p r : Nat} (mask : ShoalSubMask c p r)
    (channel : Fin c) : Nat :=
  ((List.finRange p).flatMap fun i =>
    (List.finRange r).filter fun j => mask.data (channel, i, j)).length

/-- Model of `process_single_shoal_channel`: select the channel slice
of the sub-mask, apply it to Sv (`apply_mask` keeps a sample where the
mask is True, NaN elsewhere), and compute the metric record; when the
mask has zero True cells in this channel (`area == 0`) return `None`.
Mins/maxes and first/last elements are taken over the non-empty
selection (the `getD` defaults are unreachable when `area ≠ 0` fails
the zero test); `bbox` indices follow the source's argmax-over-coords
computation, with the historical `* 2` on the ping-time offsets. -/
def process_single_shoal_channel {c p r : Nat}
    (haversine_m : ℚ × ℚ → ℚ × ℚ → ℚ)
    (nascFn : ShoalDS c p r → Fin c → ℚ)
    (ds : ShoalDS c p r) (mask : ShoalSubMask c p r) (channel : Fin c) :
    Option ShoalRecord :=
  let mc : Fin p → Fin r → Bool := fun i j => mask.data (channel, i, j)
  let Sv_masked : Fin p → Fin r → Option ℚ := fun i j =>
    if mc i j then ds.sv (channel, i, j) else none
  let md : Fin p → Fin r → Bool := fun i j => (Sv_masked i j).isSome
  let sv_mean := rationalMean
    ((List.finRange p).flatMap fun i =>
      (List.finRange r).filterMap fun j => Sv_masked i j)
  let frequency := ds.frequency_nominal channel
  let area := channelArea mask channel
  if area = 0 then none else
  let label := mask.label
  let ping_true : Fin p → Bool := fun i => (List.finRange r).any fun j => md i j
  let range_true : Fin r → Bool := fun j => (List.finRange p).any fun i => md i j
  let selPings : List (Fin p) := (List.finRange p).filter ping_true
  let selRanges : List (Fin r) := (List.finRange r).filter range_true
  let start_time := ((selPings.map ds.ping_time).min?).getD 0
  let end_time := ((selPings.map ds.ping_time).max?).getD 0
  let start_range := ((selRanges.map Fin.val).min?).getD 0
  let end_range := ((selRanges.map Fin.val).max?).getD 0
  let bbox_0 := (List.finRange r).findIdx fun j => decide (j.val = start_range)
  let bbox_2 := (List.finRange r).findIdx fun j => decide (j.val = end_range)
  let bbox_1 := ((List.finRange p).findIdx fun i =>
    decide (ds.ping_time i = start_time)) * 2
  let bbox_3 := ((List.finRange p).findIdx fun i =>
    decide (ds.ping_time i = end_time)) * 2
  let centroid_0 : ℚ := ((bbox_0 : ℚ) + (bbox_2 : ℚ)) / 2
  let centroid_1 : ℚ := ((bbox_1 : ℚ) + (bbox_3 : ℚ)) / 2
  let npings := selPings.length
  let nsamples := selRanges.length
  let mean_range := (rationalMean (selRanges.map fun j => (j.val : ℚ))).getD 0
  let start_lat := ((selPings.map ds.latitude).head?).getD 0
  let end_lat := ((selPings.map ds.latitude).getLast?).getD 0
  let start_lon := ((selPings.map ds.longitude).head?).getD 0
  let end_lon := ((selPings.map ds.longitude).getLast?).getD 0
  let length_meters := haversine_m (start_lat, start_lon) (end_lat, end_lon)
  let nasc := nascFn ds channel
  some
    { label := some label
      frequency := some frequency
      filename := some ds.filenameStem
      area := some area
      bbox_0 := some bbox_0
      bbox_1 := some bbox_1
      bbox_2 := some bbox_2
      bbox_3 := some bbox_3
      centroid_0 := some centroid_0
      centroid_1 := some centroid_1
      Sv_mean := sv_mean
      npings := some npings
      nsamples := some nsamples
      corrected_length := some length_meters
      mean_range := some mean_range
      start_range := some start_range
      end_range := some end_range
      start_time := some start_time
      end_time := some end_time
      start_lat := some start_lat
      end_lat := some end_lat
      start_lon := some start_lon
      end_lon := some end_lon
      nasc := some nasc }

/-- Model of `process_single_shoal`: one record per channel, `None`
results dropped; when every channel was dropped return `None`. -/
def process_single_shoal {c p r : Nat}
    (haversine_m : ℚ × ℚ → ℚ × ℚ → ℚ)
    (nascFn : ShoalDS c p r → Fin c → ℚ)
    (ds : ShoalDS c p r) (mask : ShoalSubMask c p r) :
    Option (List ShoalRecord) :=
  let results := (List.finRange c).map
    (process_single_shoal_channel haversine_m nascFn ds mask)
  let results := results.filterMap id
  if results = [] then none else some results

/-- Concrete inputs used by the shoal witnesses: a trivial haversine
and NASC stand-in, an all-False-mask dataset, an all-True-mask dataset,
and a two-channel dataset whose sub-mask has one True cell in channel 0
and none in channel 1. -/
def qhav : ℚ × ℚ → ℚ × ℚ → ℚ := fun _ _ => 0

def qnasc {c p r : Nat} : ShoalDS c p r → Fin c → ℚ := fun _ _ => 0

def shoalDSfalse : ShoalDS 1 2 2 :=
  { sv := fun _ => some 1, mask_shoal := fun _ => false
    frequency_nominal := fun _ => 38, filenameStem := "jr179"
    ping_time := fun i => (i.val : ℚ), latitude := fun _ => 0
    longitude := fun _ => 0 }

def shoalDStrue : ShoalDS 1 2 2 :=
  { sv := fun _ => some 1, mask_shoal := fun _ => true
    frequency_nominal := fun _ => 38, filenameStem := "jr230"
    ping_time := fun i => (i.val : ℚ), latitude := fun _ => 0
    longitude := fun _ => 0 }

def shoalDStwoChan : ShoalDS 2 1 1 :=
  { sv := fun _ => some (-70), mask_shoal := fun x => decide (x.1.val = 0)
    frequency_nominal := fun ch => if ch.val = 0 then 38 else 120
    filenameStem := "jr55", ping_time := fun _ => 0
    latitude := fun _ => 0, longitude := fun _ => 0 }

/-- Sub-mask with one True cell in channel 0 and none in channel 1. -/
def subMaskChan0 : ShoalSubMask 2 1 1 :=
  { data := fun x => decide (x.1.val = 0), label := 1 }

/-- Volume with two disjoint True rectangles separated by False:
pings 0-1 at range 0, and ping 3 at ranges 1-2. -/
def twoRectDS : ShoalDS 1 4 3 :=
  { sv := fun _ => some 1
    mask_shoal := fun x =>
      decide ((x.2.1.val ≤ 1 ∧ x.2.2.val = 0) ∨
        (x.2.1.val = 3 ∧ 1 ≤ x.2.2.val))
    frequency_nominal := fun _ => 38
    filenameStem := "tworect"
    ping_time := fun i => (i.val : ℚ)
    latitude := fun i => (i.val : ℚ)
    longitude := fun i => (i.val : ℚ) }

/-- Model of `tfc` (utils.py): (count of True cells, count of False
cells) of a boolean volume. -/
def tfc {c p r : Nat} (mask : Cell c p r → Bool) : Nat × Nat :=
  let count_true :=
    ((Finset.univ : Finset (Cell c p r)).filter fun x => mask x = true).card
  (count_true, Fintype.card (Cell c p r) - count_true)

/-- The all-null placeholder record emitted by `process_shoals` for a
dataset whose `mask_shoal` triggers the emptiness test; only
`filename` is set. -/
def empty_shoal_record (filename : String) : ShoalRecord :=
  { label := none, frequency := none, filename := some filename
    area := none, bbox_0 := none, bbox_1 := none, bbox_2 := none
    bbox_3 := none, centroid_0 := none, centroid_1 := none
    Sv_mean := none, npings := none, nsamples := none
    corrected_length := none, mean_range := none, start_range := none
    end_range := none, start_time := none, end_time := none
    start_lat := none, end_lat := none, start_lon := none
    end_lon := none, nasc := none }

/-- Model of `process_shoals`: if `0 in tfc(mask_shoal)` (zero True
cells OR zero False cells) emit the single placeholder record; else
label, process each sub-mask, and flatten. The flattening list
comprehension iterates each sublist, so a `None` sublist raises
`TypeError` in the source — modelled as an error (the trailing
`r is not None` filter is a no-op on the flattened records and is
omitted). -/
def process_shoals {c p r : Nat}
    (haversine_m : ℚ × ℚ → ℚ × ℚ → ℚ)
    (nascFn : ShoalDS c p r → Fin c → ℚ)
    (ds : ShoalDS c p r) : Except String (List ShoalRecord) :=
  if 0 = (tfc ds.mask_shoal).1 ∨ 0 = (tfc ds.mask_shoal).2 then
    .ok [empty_shoal_record ds.filenameStem]
  else
    let masks := split_shoal_mask ds
    let dicts := masks.map (process_single_shoal haversine_m nascFn ds)
    if dicts.any (fun o => o.isNone) then
      .error "TypeError: 'NoneType' object is not iterable"
    else .ok (dicts.filterMap id).flatten

/-! ## Sv interpolation (L2_calibrated_data/sv_interpolation.py)

The dataset is a named family of (channel, ping_time, range_sample)
volumes plus the ping_time coordinate. xarray's
`DataArray.interpolate_na(dim="ping_time", method=method)` is the
parameter `interpolate_na` (method name, ping_time coordinate, 1-D
series ↦ filled series). -/

structure InterpDS (c p r : Nat) where
  vars : List (String × (Fin c → Fin p → Fin r → Option ℝ))
  ping_time : Fin p → ℝ

/-- Update (or append) a named variable, dict-style. -/
def setVar {γ : Type} (vars : List (String × γ)) (name : String) (v : γ) :
    List (String × γ) :=
  if vars.any (fun kv => kv.1 = name) then
    vars.map (fun kv => if kv.1 = name then (name, v) else kv)
  else vars ++ [(name, v)]

/-- Forward fill along ping_time (model of `ffill(dim="ping_time")`):
the last non-missing value at or before each position. -/
def ffill {p : Nat} (row : Fin p → Option ℝ) : Fin p → Option ℝ :=
  fun i => ((List.finRange p).filterMap fun j =>
    if j.val ≤ i.val then row j else none).getLast?

/-- Backward fill along ping_time (model of `bfill(dim="ping_time")`):
the first non-missing value at or after each position. -/
def bfill {p : Nat} (row : Fin p → Option ℝ) : Fin p → Option ℝ :=
  fun i => ((List.finRange p).filterMap fun j =>
    if i.val ≤ j.val then row j else none).head?

/-- The per-channel loop of `interpolate_sv`: for each channel, convert
dB → linear, interpolate NaNs along ping_time with the given method,
optionally forward- then backward-fill remaining edge NaNs, convert
back to dB; the channels are then concatenated (each output channel
depends only on that channel's input slice). -/
noncomputable def interpolate_channels {c p r : Nat}
    (interpolate_na : String → (Fin p → ℝ) → (Fin p → Option ℝ) →
      (Fin p → Option ℝ))
    (ping_time : Fin p → ℝ)
    (sv_dataarray : Fin c → Fin p → Fin r → Option ℝ)
    (method : String) (with_edge_fill : Bool) :
    Fin c → Fin p → Fin r → Option ℝ := fun channel =>
  let channel_data := sv_dataarray channel
  let channel_data_linear : Fin p → Fin r → Option ℝ := fun i j =>
    db_to_linear (channel_data i j)
  let interpolated : Fin r → Fin p → Option ℝ := fun j =>
    interpolate_na method ping_time (fun i => channel_data_linear i j)
  let filled : Fin r → Fin p → Option ℝ :=
    if with_edge_fill then fun j => bfill (ffill (interpolated j))
    else interpolated
  fun i j => linear_to_db (filled j i)

/-- Model of `interpolate_sv` on an in-memory dataset: process the
channels of the `"Sv"` variable and store the result as the NEW
variable `"Sv_interpolated"` (the source's final line is
`dataset["Sv_interpolated"] = interpolated_sv` — the `"Sv"` variable is
not reassigned). Reading `dataset["Sv"]` raises KeyError when absent. -/
noncomputable def interpolate_sv {c p r : Nat}
    (interpolate_na : String → (Fin p → ℝ) → (Fin p → Option ℝ) →
      (Fin p → Option ℝ))
    (sv_ds : InterpDS c p r) (method : String) (with_edge_fill : Bool) :
    Except String (InterpDS c p r) :=
  match sv_ds.vars.lookup "Sv" with
  | none => .error "KeyError: Sv"
  | some sv_dataarray =>
    .ok { sv_ds with
      vars := setVar sv_ds.vars "Sv_interpolated"
        (interpolate_channels interpolate_na sv_ds.ping_time sv_dataarray
          method with_edge_fill) }

/-- Concrete inputs for the interpolation witnesses: a one-channel
volume with a missing sample at ping 1, and an external interpolator
stand-in that fills every missing sample with 0. -/
def sv0 : Fin 1 → Fin 2 → Fin 1 → Option ℝ :=
  fun _ i _ => if i.val = 0 then some 1 else none

def interpDS0 : InterpDS 1 2 1 :=
  { vars := [("Sv", sv0)], ping_time := fun _ => 0 }

def interpNAfill {p : Nat} :
    String → (Fin p → ℝ) → (Fin p → Option ℝ) → (Fin p → Option ℝ) :=
  fun _ _ row i => (row i).or (some 0)

end OceanStream

/-! # Theorems -/

namespace OceanStream

/-! ## Helper lemmas: association-list lookup under permutation -/

theorem lookup_eq_of_perm_nodup {β : Type} {r1 r2 : List (String × β)}
    (hperm : r1.Perm r2) (hnd : (r1.map Prod.fst).Nodup) (k : String) :
    r1.lookup k = r2.lookup k := by
  induction hperm with
  | nil => rfl
  | cons x _ ih =>
      obtain ⟨xk, xv⟩ := x
      simp only [List.map_cons, List.nodup_cons] at hnd
      simp only [List.lookup_cons]
      cases hkx : k == xk with
      | true => rfl
      | false => exact ih hnd.2
  | swap x y l =>
      obtain ⟨xk, xv⟩ := x
      obtain ⟨yk, yv⟩ := y
      simp only [List.map_cons, List.nodup_cons, List.mem_cons] at hnd
      have hxy : yk ≠ xk := fun h => hnd.1 (Or.inl h)
      simp only [List.lookup_cons]
      cases hky : k == yk with
      | true =>
          cases hkx : k == xk with
          | true =>
              exact absurd (((eq_of_beq hky).symm).trans (eq_of_beq hkx)) hxy
          | false => rfl
      | false => cases hkx : k == xk with
          | true => rfl
          | false => rfl
  | trans h12 _ ih12 ih23 =>
      have hnd2 := ((h12.map Prod.fst).nodup_iff).mp hnd
      exact (ih12 hnd).trans (ih23 hnd2)

/-- The second component of one noise-fold step either keeps the trace
or appends the processed name. -/
theorem applyNoiseStep_snd {α β : Type}
    (applyMask : DenoiseDS α → α → β → DenoiseDS α)
    (removeBg : DenoiseDS α → β → DenoiseDS α)
    (req : List (String × β)) (st : DenoiseDS α × List String) (x : String) :
    (applyNoiseStep applyMask removeBg req st x).2 = st.2 ∨
      (applyNoiseStep applyMask removeBg req st x).2 = st.2 ++ [x] := by
  unfold applyNoiseStep
  cases hl : req.lookup x with
  | none => exact Or.inl rfl
  | some params =>
      by_cases h1 : x ∈ noise_mask_names
      · simp only [if_pos h1]
        cases hl2 : st.1.vars.lookup x with
        | none => simp
        | some md => simp
      · simp only [if_neg h1]
        by_cases h2 : x = "remove_background_noise"
        · simp only [if_pos h2]
          simp
        · simp only [if_neg h2]
          simp

/-- The trace accumulated by the fixed-order noise fold extends the
initial trace by a subsequence of the iterated process list. -/
theorem noise_trace_sublist_aux {α β : Type}
    (applyMask : DenoiseDS α → α → β → DenoiseDS α)
    (removeBg : DenoiseDS α → β → DenoiseDS α)
    (req : List (String × β)) :
    ∀ (l : List String) (st : DenoiseDS α × List String),
      ∃ t, (l.foldl (applyNoiseStep applyMask removeBg req) st).2 = st.2 ++ t ∧
        t.Sublist l := by
  intro l
  induction l with
  | nil => exact fun st => ⟨[], by simp⟩
  | cons x l ih =>
      intro st
      obtain ⟨t, ht, hsub⟩ := ih (applyNoiseStep applyMask removeBg req st x)
      rw [List.foldl_cons]
      rcases applyNoiseStep_snd applyMask removeBg req st x with hx | hx
      · exact ⟨t, by rw [ht, hx], hsub.cons x⟩
      · exact ⟨x :: t, by rw [ht, hx, List.append_assoc]; rfl, hsub.cons₂ x⟩

/-- Equal variable-name sequences give equal lookup success. -/
theorem keys_eq_lookup_isSome {γ : Type} :
    ∀ (l1 l2 : List (String × γ)) (k : String),
      l1.map Prod.fst = l2.map Prod.fst →
      (l1.lookup k).isSome = (l2.lookup k).isSome := by
  intro l1
  induction l1 with
  | nil =>
      intro l2 k h
      cases l2 with
      | nil => rfl
      | cons y l2 => simp at h
  | cons x l ih =>
      intro l2 k h
      cases l2 with
      | nil => simp at h
      | cons y l2 =>
          obtain ⟨xk, xv⟩ := x
          obtain ⟨yk, yv⟩ := y
          simp only [List.map_cons, List.cons.injEq] at h
          rw [List.lookup_cons, List.lookup_cons, h.1]
          cases k == yk
          · exact ih l2 k h.2
          · rfl

/-- Exact characterization of the application trace of the noise fold:
when the externals preserve the variable-name sequence, the trace over
a sublist `l` of the fixed order is the fixed-order filter of the
requested processes whose mask is attached (background-noise-removal
needs no attached mask). -/
theorem noise_trace_exact_aux {α β : Type}
    (applyMask : DenoiseDS α → α → β → DenoiseDS α)
    (removeBg : DenoiseDS α → β → DenoiseDS α)
    (req : List (String × β))
    (hpres1 : ∀ d m par,
      ((applyMask d m par).vars.map Prod.fst) = d.vars.map Prod.fst)
    (hpres2 : ∀ d par,
      ((removeBg d par).vars.map Prod.fst) = d.vars.map Prod.fst)
    (ds0 : DenoiseDS α) :
    ∀ (l : List String), (∀ q ∈ l, q ∈ valid_processes) →
      ∀ (st : DenoiseDS α × List String),
        st.1.vars.map Prod.fst = ds0.vars.map Prod.fst →
        (l.foldl (applyNoiseStep applyMask removeBg req) st).2 =
          st.2 ++ l.filter (fun q => (req.lookup q).isSome &&
            (!(decide (q ∈ noise_mask_names)) ||
              (ds0.vars.lookup q).isSome)) := by
  intro l
  induction l with
  | nil =>
      intro _ st _
      simp
  | cons q l ih =>
      intro hval st hkeys
      have hval2 : ∀ x ∈ l, x ∈ valid_processes :=
        fun x hx => hval x (List.mem_cons_of_mem q hx)
      have hlook : (st.1.vars.lookup q).isSome =
          (ds0.vars.lookup q).isSome :=
        keys_eq_lookup_isSome st.1.vars ds0.vars q hkeys
      rw [List.foldl_cons, List.filter_cons]
      have hkeys2 : (applyNoiseStep applyMask removeBg req st q).1.vars.map
          Prod.fst = ds0.vars.map Prod.fst := by
        unfold applyNoiseStep
        cases hl : req.lookup q with
        | none => exact hkeys
        | some params =>
            by_cases h1 : q ∈ noise_mask_names
            · simp only [if_pos h1]
              cases hl2 : st.1.vars.lookup q with
              | none => exact hkeys
              | some md => rw [hpres1]; exact hkeys
            · simp only [if_neg h1]
              by_cases h2 : q = "remove_background_noise"
              · simp only [if_pos h2]
                rw [hpres2]
                exact hkeys
              · simp only [if_neg h2]
                exact hkeys
      rw [ih hval2 (applyNoiseStep applyMask removeBg req st q) hkeys2]
      cases hl : req.lookup q with
      | none =>
          have hstep : applyNoiseStep applyMask removeBg req st q = st := by
            unfold applyNoiseStep
            rw [hl]
          rw [hstep]
          simp
      | some params =>
          by_cases h1 : q ∈ noise_mask_names
          · cases hl2 : st.1.vars.lookup q with
            | none =>
                have hstep : applyNoiseStep applyMask removeBg req st q = st := by
                  unfold applyNoiseStep
                  rw [hl]
                  simp only [if_pos h1]
                  rw [hl2]
                have hfalse : (ds0.vars.lookup q).isSome = false := by
                  rw [← hlook, hl2]
                  rfl
                rw [hstep]
                simp [hfalse, h1]
            | some md =>
                have hstep : (applyNoiseStep applyMask removeBg req st q) =
                    (applyMask st.1 md params, st.2 ++ [q]) := by
                  unfold applyNoiseStep
                  rw [hl]
                  simp only [if_pos h1]
                  rw [hl2]
                have htrue : (ds0.vars.lookup q).isSome = true := by
                  rw [← hlook, hl2]
                  rfl
                rw [hstep]
                simp [htrue]
          · have h2 : q = "remove_background_noise" := by
              have hq := hval q (List.mem_cons_self q l)
              unfold valid_processes at hq
              unfold noise_mask_names at h1
              simp only [List.mem_cons, List.not_mem_nil, or_false] at hq
              rcases hq with h | h | h | h | h | h
              · exact absurd (by rw [h]; decide) h1
              · exact absurd (by rw [h]; decide) h1
              · exact absurd (by rw [h]; decide) h1
              · exact h
              · exact absurd (by rw [h]; decide) h1
              · exact absurd (by rw [h]; decide) h1
            have hstep : (applyNoiseStep applyMask removeBg req st q) =
                (removeBg st.1 params, st.2 ++ [q]) := by
              unfold applyNoiseStep
              rw [hl]
              simp only [if_neg h1]
              simp only [if_pos h2]
            rw [hstep]
            simp [h1]

/-- C1: for every dataset and request dict over the recognized noise
set, `apply_selected_noise_masks_and_or_noise_removal` is independent
of the request dict's iteration order (permuting the request leaves the
result, including the trace of performed applications, unchanged), and
the trace of applications is always a subsequence of the fixed internal
order impulse → attenuation → transient → background-noise-removal →
false-seabed → seabed (`valid_processes`). -/
theorem claim_C1_noise_mask_fixed_order {α β : Type}
    (applyMask : DenoiseDS α → α → β → DenoiseDS α)
    (removeBg : DenoiseDS α → β → DenoiseDS α)
    (ds : DenoiseDS α) (r1 r2 : List (String × β))
    (hperm : r1.Perm r2) (hnd : (r1.map Prod.fst).Nodup) :
    apply_selected_noise_masks_and_or_noise_removal applyMask removeBg ds r1 =
      apply_selected_noise_masks_and_or_noise_removal applyMask removeBg ds r2 ∧
    (∀ out trace,
      apply_selected_noise_masks_and_or_noise_removal applyMask removeBg ds r1 =
        .ok (out, trace) → trace.Sublist valid_processes) ∧
    ((∀ d m par, ((applyMask d m par).vars.map Prod.fst) = d.vars.map Prod.fst) →
     (∀ d par, ((removeBg d par).vars.map Prod.fst) = d.vars.map Prod.fst) →
      ∀ out trace,
        apply_selected_noise_masks_and_or_noise_removal applyMask removeBg ds r1 =
          .ok (out, trace) →
        trace = valid_processes.filter (fun q => (r1.lookup q).isSome &&
          (!(decide (q ∈ noise_mask_names)) || (ds.vars.lookup q).isSome))) := by
  refine ⟨?_, ?_, ?_⟩
  · have hlookup : ∀ k, r1.lookup k = r2.lookup k :=
      lookup_eq_of_perm_nodup hperm hnd
    have hstep : applyNoiseStep applyMask removeBg r1 =
        applyNoiseStep applyMask removeBg r2 := by
      funext st process
      unfold applyNoiseStep
      rw [hlookup process]
    have hall : r1.all (fun kv => valid_processes.contains kv.1) =
        r2.all (fun kv => valid_processes.contains kv.1) := by
      rw [Bool.eq_iff_iff, List.all_eq_true, List.all_eq_true]
      exact ⟨fun h kv hm => h kv (hperm.mem_iff.mpr hm),
             fun h kv hm => h kv (hperm.mem_iff.mp hm)⟩
    unfold apply_selected_noise_masks_and_or_noise_removal
    rw [hall, hstep]
  · intro out trace h
    unfold apply_selected_noise_masks_and_or_noise_removal at h
    by_cases hv : r1.all (fun kv => valid_processes.contains kv.1) = true
    · rw [if_pos hv] at h
      obtain ⟨t, ht, hsub⟩ :=
        noise_trace_sublist_aux applyMask removeBg r1 valid_processes (ds, [])
      injection h with h2
      rw [h2] at ht
      simp only [List.nil_append] at ht
      rw [show trace = t from ht]
      exact hsub
    · rw [if_neg hv] at h
      exact absurd h (by simp)
  · intro hpres1 hpres2 out trace h
    unfold apply_selected_noise_masks_and_or_noise_removal at h
    by_cases hv : r1.all (fun kv => valid_processes.contains kv.1) = true
    · rw [if_pos hv] at h
      injection h with h2
      have h3 := noise_trace_exact_aux applyMask removeBg r1 hpres1 hpres2 ds
        valid_processes (fun q hq => hq) (ds, []) rfl
      rw [h2] at h3
      simpa using h3
    · rw [if_neg hv] at h
      exact absurd h (by simp)

/-- C1 witness: a request dict listing seabed before impulse gives the
same result as one listing impulse before seabed, and on a dataset with
both masks attached the applications are performed in the order
impulse, then seabed. -/
theorem claim_C1_witness :
    (([("mask_seabed", ()), ("mask_impulse", ())] : List (String × Unit)).Perm
        [("mask_impulse", ()), ("mask_seabed", ())] ∧
      ((([("mask_seabed", ()), ("mask_impulse", ())] :
          List (String × Unit)).map Prod.fst).Nodup) ∧
      apply_selected_noise_masks_and_or_noise_removal idApplyMask idRemoveBg
          impulseSeabedDS [("mask_seabed", ()), ("mask_impulse", ())] =
        .ok (impulseSeabedDS, ["mask_impulse", "mask_seabed"])) ∧
    apply_selected_noise_masks_and_or_noise_removal idApplyMask idRemoveBg
        impulseSeabedDS [("mask_seabed", ()), ("mask_impulse", ())] =
      apply_selected_noise_masks_and_or_noise_removal idApplyMask idRemoveBg
        impulseSeabedDS [("mask_impulse", ()), ("mask_seabed", ())] :=
  ⟨⟨by decide, by decide, by rfl⟩,
    (claim_C1_noise_mask_fixed_order idApplyMask idRemoveBg impulseSeabedDS
      [("mask_seabed", ()), ("mask_impulse", ())]
      [("mask_impulse", ()), ("mask_seabed", ())]
      (by decide) (by decide)).1⟩

/-! ## C5: error behaviour on unrecognized mask names -/

/-- Once the organisms fold has errored, it stays errored. -/
theorem organisms_foldl_error {α β : Type}
    (applyMask : DenoiseDS α → α → β → DenoiseDS α)
    (l : List (String × β)) (e : String × List String) :
    l.foldl (organismsStep applyMask) (.error e) = .error e := by
  induction l with
  | nil => rfl
  | cons x l ih => exact ih

/-- C5 counterexample: in `apply_mask_organisms_in_order`, a request
listing a valid mask before an unrecognized name applies the valid mask
before raising — the trace of applications made before the error is
`["mask_krill"]`, not empty, contradicting "no mask in the same request
is applied before the error". -/
theorem claim_C5_counterexample :
    apply_mask_organisms_in_order idApplyMask krillDS
        [("mask_krill", ()), ("unexpected_name", ())] =
      .error ("Unrecognized mask name. Please refer to the function documentation for valid masks",
        ["mask_krill"]) := by
  rfl

/-- C5 (amended): an unrecognized key always raises in both functions.
`apply_selected_noise_masks_and_or_noise_removal` validates every key
before applying anything, so its error carries an empty application
trace; `apply_mask_organisms_in_order` validates each key only when the
iteration reaches it, so the error is raised after the applications of
the request prefix preceding the first unrecognized key (the caller's
input volume is unchanged in both cases — the intermediate dataset is
discarded with the raise). -/
theorem claim_C5_amended_error_on_unrecognized {α β : Type}
    (applyMask : DenoiseDS α → α → β → DenoiseDS α)
    (removeBg : DenoiseDS α → β → DenoiseDS α) (ds : DenoiseDS α) :
    (∀ (req : List (String × β)) (k : String),
      k ∈ req.map Prod.fst → k ∉ valid_processes →
      apply_selected_noise_masks_and_or_noise_removal applyMask removeBg ds req =
        .error ("Unexpected mask/process. Please refer to the function documentation for valid masks/processes.", [])) ∧
    (∀ (pre post : List (String × β)) (bad : String) (params : β)
        (ds2 : DenoiseDS α) (trace : List String),
      bad ∉ recognized_masks →
      apply_mask_organisms_in_order applyMask ds pre = .ok (ds2, trace) →
      apply_mask_organisms_in_order applyMask ds (pre ++ (bad, params) :: post) =
        .error ("Unrecognized mask name. Please refer to the function documentation for valid masks", trace)) := by
  constructor
  · intro req k hk hkv
    unfold apply_selected_noise_masks_and_or_noise_removal
    have hfalse : ¬(req.all (fun kv => valid_processes.contains kv.1) = true) := by
      intro hall
      rw [List.all_eq_true] at hall
      obtain ⟨kv, hkv1, hkv2⟩ := List.mem_map.mp hk
      have h3 := hall kv hkv1
      have h4 : kv.1 ∈ valid_processes := by simpa using h3
      exact hkv (hkv2 ▸ h4)
    rw [if_neg hfalse]
  · intro pre post bad params ds2 trace hbad hpre
    unfold apply_mask_organisms_in_order at hpre ⊢
    rw [List.foldl_append, hpre, List.foldl_cons]
    have hstep : organismsStep applyMask (.ok (ds2, trace)) (bad, params) =
        .error ("Unrecognized mask name. Please refer to the function documentation for valid masks", trace) := by
      simp [organismsStep, hbad]
    rw [hstep]
    exact organisms_foldl_error applyMask post _

/-- C5 witness: concrete instantiation — an invalid key makes the
noise handler error with an empty trace, and after a successfully
applied prefix the organisms handler errors carrying that prefix. -/
theorem claim_C5_witness :
    (("unexpected_name" ∈ ([("unexpected_name", ())] :
        List (String × Unit)).map Prod.fst) ∧
      "unexpected_name" ∉ valid_processes ∧
      "unexpected_name" ∉ recognized_masks ∧
      apply_mask_organisms_in_order idApplyMask krillDS [("mask_krill", ())] =
        .ok (krillDS, ["mask_krill"])) ∧
    apply_selected_noise_masks_and_or_noise_removal idApplyMask idRemoveBg
        krillDS [("unexpected_name", ())] =
      .error ("Unexpected mask/process. Please refer to the function documentation for valid masks/processes.", []) ∧
    apply_mask_organisms_in_order idApplyMask krillDS
        [("mask_krill", ()), ("unexpected_name", ())] =
      .error ("Unrecognized mask name. Please refer to the function documentation for valid masks",
        ["mask_krill"]) :=
  ⟨⟨by decide, by decide, by decide, by rfl⟩,
    (claim_C5_amended_error_on_unrecognized idApplyMask idRemoveBg krillDS).1
      [("unexpected_name", ())] "unexpected_name" (by decide) (by decide),
    (claim_C5_amended_error_on_unrecognized idApplyMask idRemoveBg krillDS).2
      [("mask_krill", ())] [] "unexpected_name" () krillDS
      ["mask_krill"] (by decide) (by rfl)⟩


/-! ## C6: mask attachment semantics -/

/-- C6: attaching a mask M carrying a `mask_type` attribute t yields a
dataset whose variable `"mask_" ++ t` is M itself — so its shape equals
the primary variable's shape whenever M conforms to the data-model
shape invariant, and its attributes expose M's metadata (`mask_type`,
`method`, `parameters` are all in `M.attrs`); folding attach
left-to-right over two masks sharing a `mask_type` succeeds, the later
mask overwriting the earlier one (no merge, no error). -/
theorem claim_C6_attach_mask_semantics (Sv : SvDataset) (mask : MaskVar)
    (t : String) (ht : mask.attrs.lookup "mask_type" = some t) :
    (∃ Sv2, attach_mask_to_dataset Sv mask = .ok Sv2 ∧
      Sv2.getVar ("mask_" ++ t) = some mask ∧
      (∀ svv : MaskVar, Sv.getVar "Sv" = some svv → mask.shape = svv.shape →
        ∃ mv, Sv2.getVar ("mask_" ++ t) = some mv ∧ mv.shape = svv.shape ∧
          mv.attrs = mask.attrs)) ∧
    (∀ m1 m2 : MaskVar, m1.attrs.lookup "mask_type" = some t →
      m2.attrs.lookup "mask_type" = some t →
      ∃ Sv2, attach_masks_to_dataset Sv [m1, m2] = .ok Sv2 ∧
        Sv2.getVar ("mask_" ++ t) = some m2) := by
  constructor
  · refine ⟨⟨fun name =>
      if name = "mask_" ++ t then some mask
      else if name = "mask" then none
      else Sv.getVar name⟩, ?_, ?_, ?_⟩
    · unfold attach_mask_to_dataset
      rw [ht]
    · simp
    · intro svv h1 h2
      exact ⟨mask, by simp, h2, rfl⟩
  · intro m1 m2 h1 h2
    refine ⟨⟨fun name =>
      if name = "mask_" ++ t then some m2
      else if name = "mask" then none
      else (fun name2 =>
        if name2 = "mask_" ++ t then some m1
        else if name2 = "mask" then none
        else Sv.getVar name2) name⟩, ?_, ?_⟩
    · show List.foldlM attach_mask_to_dataset Sv [m1, m2] = _
      rw [List.foldlM_cons]
      unfold attach_mask_to_dataset
      rw [h1]
      show List.foldlM attach_mask_to_dataset _ [m2] = _
      rw [List.foldlM_cons]
      unfold attach_mask_to_dataset
      rw [h2]
      rfl
    · simp

/-- C6 witness: concrete instantiation with a seabed-typed mask over a
dataset carrying a primary variable of the same shape, and two
seabed-typed masks attached in sequence. -/
theorem claim_C6_witness :
    (seabedMaskA.attrs.lookup "mask_type" = some "seabed") ∧
    (∃ Sv2, attach_mask_to_dataset svDataset0 seabedMaskA = .ok Sv2 ∧
      Sv2.getVar "mask_seabed" = some seabedMaskA ∧
      (∀ svv : MaskVar, svDataset0.getVar "Sv" = some svv →
        seabedMaskA.shape = svv.shape →
        ∃ mv, Sv2.getVar "mask_seabed" = some mv ∧ mv.shape = svv.shape ∧
          mv.attrs = seabedMaskA.attrs)) ∧
    (∃ Sv2, attach_masks_to_dataset svDataset0 [seabedMaskA, seabedMaskB] = .ok Sv2 ∧
      Sv2.getVar "mask_seabed" = some seabedMaskB) :=
  ⟨by decide,
   (claim_C6_attach_mask_semantics svDataset0 seabedMaskA "seabed" (by decide)).1,
   (claim_C6_attach_mask_semantics svDataset0 seabedMaskA "seabed" (by decide)).2
     seabedMaskA seabedMaskB (by decide) (by decide)⟩

/-! ## C7: frequency-differencing parameter validation -/

/-- C7 counterexample: supplying BOTH complete forms at once (single
operator+threshold and the full interval) does not raise — the single
form silently takes precedence, contradicting "for every other
combination of the eight optional parameters the call raises a
configuration error". -/
theorem claim_C7_counterexample :
    find_mask_freq_diff (fun s => s) (fun a b => a ++ "&" ++ b)
        "chan120" "chan38" (some ">") (some "2.0") (some ">=") (some "2.0")
        (some "<=") (some "16.0") =
      .ok (freq_diff_expr "chan120" "chan38" ">" "2.0") := by rfl

/-- C7 (amended): the builder raises the configuration error exactly
when NEITHER form is fully specified: if the single form (operator and
threshold) is complete it is used — even when interval parameters are
also supplied, which are then ignored rather than raising; otherwise a
complete interval form is used; otherwise the call raises and builds no
mask. `apply_freq_diff` (the L3 variant, which additionally applies
the mask) raises under exactly the same condition. -/
theorem claim_C7_amended_form_selection {M D : Type}
    (frequency_differencing : String → M) (andMask : M → M → M)
    (apply_mask : D → M → D) (ds : D) (chanA chanB : String)
    (so sv iso isv ieo iev : Option String) :
    (find_mask_freq_diff frequency_differencing andMask chanA chanB
        so sv iso isv ieo iev = .error "Invalid combination of parameters provided." ↔
      ¬(so.isSome = true ∧ sv.isSome = true) ∧
        ¬(iso.isSome = true ∧ isv.isSome = true ∧ ieo.isSome = true ∧
          iev.isSome = true)) ∧
    (∀ op v, so = some op → sv = some v →
      find_mask_freq_diff frequency_differencing andMask chanA chanB
          so sv iso isv ieo iev =
        .ok (frequency_differencing (freq_diff_expr chanA chanB op v))) ∧
    (∀ op1 v1 op2 v2, (so = none ∨ sv = none) →
      iso = some op1 → isv = some v1 → ieo = some op2 → iev = some v2 →
      find_mask_freq_diff frequency_differencing andMask chanA chanB
          so sv iso isv ieo iev =
        .ok (andMask
          (frequency_differencing (freq_diff_expr chanA chanB op1 v1))
          (frequency_differencing (freq_diff_expr chanA chanB op2 v2)))) ∧
    (apply_freq_diff frequency_differencing andMask apply_mask ds chanA chanB
        so sv iso isv ieo iev = .error "Invalid combination of parameters provided." ↔
      find_mask_freq_diff frequency_differencing andMask chanA chanB
        so sv iso isv ieo iev = .error "Invalid combination of parameters provided.") := by
  cases so <;> cases sv <;> cases iso <;> cases isv <;> cases ieo <;> cases iev <;>
    simp only [find_mask_freq_diff, apply_freq_diff, Except.map] <;>
      first
      | (simp; done)
      | (simp
         intro op1 v1 op2 v2 h1 h2 h3 h4
         rw [h1, h2, h3, h4])

/-- C7 witness: with nothing specified the builder raises; with the
single form specified it returns the single-form mask. -/
theorem claim_C7_witness :
    find_mask_freq_diff (fun s => s) (fun a b => a ++ "&" ++ b) "A" "B"
        none none none none none none =
      .error "Invalid combination of parameters provided." ∧
    find_mask_freq_diff (fun s => s) (fun a b => a ++ "&" ++ b) "A" "B"
        (some ">") (some "2") none none none none =
      .ok (freq_diff_expr "A" "B" ">" "2") :=
  ⟨(claim_C7_amended_form_selection (fun s => s) (fun a b => a ++ "&" ++ b)
      (fun (d : Unit) _ => d) () "A" "B" none none none none none none).1.mpr
      (by decide),
   (claim_C7_amended_form_selection (fun s => s) (fun a b => a ++ "&" ++ b)
      (fun (d : Unit) _ => d) () "A" "B" (some ">") (some "2")
      none none none none).2.1 ">" "2" rfl rfl⟩

end OceanStream

namespace OceanStream

/-- C8: for every value x, `linear_to_db (db_to_linear x) = x`
(floats modelled as exact reals), and both conversions map a missing
value (NaN) to a missing value. -/
theorem claim_C8_db_linear_roundtrip :
    (∀ x : Option ℝ, linear_to_db (db_to_linear x) = x) ∧
    db_to_linear none = none ∧ linear_to_db none = none := by
  refine ⟨?_, rfl, rfl⟩
  intro x
  cases x with
  | none => rfl
  | some d =>
      show some (10 * Real.logb 10 ((10:ℝ) ^ (d / 10))) = some d
      congr 1
      rw [Real.logb_rpow (by norm_num : (0:ℝ) < 10)]
      · ring
      · norm_num

end OceanStream

namespace OceanStream

/-! ## C3, C4, C10: shoal metric records -/

/-- Length of a `filterMap` equals the number of elements sent to
`some`. -/
theorem length_filterMap_eq_length_filter {γ δ : Type} (f : γ → Option δ)
    (l : List γ) :
    (l.filterMap f).length = (l.filter fun x => (f x).isSome).length := by
  induction l with
  | nil => rfl
  | cons x l ih =>
      cases hx : f x <;>
        simp [List.filterMap_cons, hx, ih, List.filter_cons]

/-- A channel record is produced exactly when the channel slice of the
sub-mask has a positive area. -/
theorem process_single_shoal_channel_isSome_iff {c p r : Nat}
    (haversine_m : ℚ × ℚ → ℚ × ℚ → ℚ) (nascFn : ShoalDS c p r → Fin c → ℚ)
    (ds : ShoalDS c p r) (mask : ShoalSubMask c p r) (channel : Fin c) :
    (process_single_shoal_channel haversine_m nascFn ds mask channel).isSome =
      true ↔ channelArea mask channel ≠ 0 := by
  by_cases h : channelArea mask channel = 0 <;>
    simp [process_single_shoal_channel, h]

/-- C3: for every dataset, shoal sub-mask and channel, a metric record
is produced exactly when the sub-mask has a positive True-cell count in
that channel's slice (a zero-area channel is dropped, not emitted with
null metrics); consequently the flattened per-shoal list is exactly the
per-channel records of the positive-area channels, one each, in channel
order. -/
theorem claim_C3_zero_area_channels_dropped {c p r : Nat}
    (haversine_m : ℚ × ℚ → ℚ × ℚ → ℚ) (nascFn : ShoalDS c p r → Fin c → ℚ)
    (ds : ShoalDS c p r) (mask : ShoalSubMask c p r) :
    (∀ channel,
      (process_single_shoal_channel haversine_m nascFn ds mask channel).isSome
        = true ↔ channelArea mask channel ≠ 0) ∧
    (process_single_shoal haversine_m nascFn ds mask).getD [] =
      (List.finRange c).filterMap
        (process_single_shoal_channel haversine_m nascFn ds mask) ∧
    ((process_single_shoal haversine_m nascFn ds mask).getD []).length =
      ((List.finRange c).filter fun channel =>
        decide (channelArea mask channel ≠ 0)).length := by
  have hmap : ((List.finRange c).map
        (process_single_shoal_channel haversine_m nascFn ds mask)).filterMap id
      = (List.finRange c).filterMap
        (process_single_shoal_channel haversine_m nascFn ds mask) := by
    rw [List.filterMap_map]
    rfl
  have hgetD : (process_single_shoal haversine_m nascFn ds mask).getD [] =
      (List.finRange c).filterMap
        (process_single_shoal_channel haversine_m nascFn ds mask) := by
    simp only [process_single_shoal]
    rw [hmap]
    by_cases hnil : (List.finRange c).filterMap
        (process_single_shoal_channel haversine_m nascFn ds mask) = []
    · rw [if_pos hnil, hnil]
      rfl
    · rw [if_neg hnil]
      rfl
  refine ⟨process_single_shoal_channel_isSome_iff haversine_m nascFn ds mask,
    hgetD, ?_⟩
  rw [hgetD, length_filterMap_eq_length_filter]
  congr 1
  apply List.filter_congr
  intro channel _
  rw [Bool.eq_iff_iff]
  simp only [decide_eq_true_eq]
  exact process_single_shoal_channel_isSome_iff haversine_m nascFn ds mask channel

/-- C3 witness: two-channel dataset whose shoal sub-mask has one True
cell in channel 0 and none in channel 1 — the per-shoal list has
exactly one record, and channel 1 produces none. -/
theorem claim_C3_witness :
    (channelArea subMaskChan0 0 ≠ 0 ∧ channelArea subMaskChan0 1 = 0 ∧
      ((process_single_shoal qhav qnasc shoalDStwoChan subMaskChan0).getD
        []).length = 1) ∧
    ¬((process_single_shoal_channel qhav qnasc shoalDStwoChan subMaskChan0
        1).isSome = true) :=
  ⟨⟨by decide, by decide, by
      rw [(claim_C3_zero_area_channels_dropped qhav qnasc shoalDStwoChan
        subMaskChan0).2.2]
      decide⟩,
    fun h => by
      have h2 := (claim_C3_zero_area_channels_dropped qhav qnasc shoalDStwoChan
        subMaskChan0).1 1 |>.mp h
      exact h2 (by decide)⟩

/-- C4: a dataset whose `mask_shoal` has zero True cells produces the
single all-null-except-filename placeholder record (no labelling, no
metrics, not an empty list). -/
theorem claim_C4_empty_mask_placeholder {c p r : Nat}
    (haversine_m : ℚ × ℚ → ℚ × ℚ → ℚ) (nascFn : ShoalDS c p r → Fin c → ℚ)
    (ds : ShoalDS c p r) (h : (tfc ds.mask_shoal).1 = 0) :
    process_shoals haversine_m nascFn ds =
      .ok [empty_shoal_record ds.filenameStem] ∧
    (empty_shoal_record ds.filenameStem).filename = some ds.filenameStem ∧
    (empty_shoal_record ds.filenameStem).label = none ∧
    (empty_shoal_record ds.filenameStem).frequency = none ∧
    (empty_shoal_record ds.filenameStem).area = none ∧
    (empty_shoal_record ds.filenameStem).bbox_0 = none ∧
    (empty_shoal_record ds.filenameStem).bbox_1 = none ∧
    (empty_shoal_record ds.filenameStem).bbox_2 = none ∧
    (empty_shoal_record ds.filenameStem).bbox_3 = none ∧
    (empty_shoal_record ds.filenameStem).centroid_0 = none ∧
    (empty_shoal_record ds.filenameStem).centroid_1 = none ∧
    (empty_shoal_record ds.filenameStem).Sv_mean = none ∧
    (empty_shoal_record ds.filenameStem).npings = none ∧
    (empty_shoal_record ds.filenameStem).nsamples = none ∧
    (empty_shoal_record ds.filenameStem).corrected_length = none ∧
    (empty_shoal_record ds.filenameStem).mean_range = none ∧
    (empty_shoal_record ds.filenameStem).start_range = none ∧
    (empty_shoal_record ds.filenameStem).end_range = none ∧
    (empty_shoal_record ds.filenameStem).start_time = none ∧
    (empty_shoal_record ds.filenameStem).end_time = none ∧
    (empty_shoal_record ds.filenameStem).start_lat = none ∧
    (empty_shoal_record ds.filenameStem).end_lat = none ∧
    (empty_shoal_record ds.filenameStem).start_lon = none ∧
    (empty_shoal_record ds.filenameStem).end_lon = none ∧
    (empty_shoal_record ds.filenameStem).nasc = none := by
  refine ⟨?_, rfl, rfl, rfl, rfl, rfl, rfl, rfl, rfl, rfl, rfl, rfl, rfl,
    rfl, rfl, rfl, rfl, rfl, rfl, rfl, rfl, rfl, rfl, rfl, rfl⟩
  unfold process_shoals
  rw [if_pos (Or.inl h.symm)]

/-- C4 witness: concrete all-False `mask_shoal`. -/
theorem claim_C4_witness :
    (tfc shoalDSfalse.mask_shoal).1 = 0 ∧
    process_shoals qhav qnasc shoalDSfalse =
      .ok [empty_shoal_record "jr179"] :=
  ⟨by decide,
    (claim_C4_empty_mask_placeholder qhav qnasc shoalDSfalse (by decide)).1⟩

/-- C10: a dataset whose `mask_shoal` is True at every cell (so it has
zero False cells) also gets the single placeholder record and no shoal
metrics, because the emptiness test `0 in tfc(mask)` checks both the
True count and the False count. -/
theorem claim_C10_all_true_mask_placeholder {c p r : Nat}
    (haversine_m : ℚ × ℚ → ℚ × ℚ → ℚ) (nascFn : ShoalDS c p r → Fin c → ℚ)
    (ds : ShoalDS c p r) (h : ∀ x, ds.mask_shoal x = true) :
    (tfc ds.mask_shoal).2 = 0 ∧
    process_shoals haversine_m nascFn ds =
      .ok [empty_shoal_record ds.filenameStem] := by
  have hcount : (tfc ds.mask_shoal).2 = 0 := by
    unfold tfc
    simp only []
    rw [Finset.filter_true_of_mem (fun x _ => h x)]
    simp
  refine ⟨hcount, ?_⟩
  unfold process_shoals
  rw [if_pos (Or.inr hcount.symm)]

/-- C10 witness: concrete all-True `mask_shoal` with a non-zero True
count (showing the placeholder branch is taken through the False-count
test, not the True-count test). -/
theorem claim_C10_witness :
    ((∀ x, shoalDStrue.mask_shoal x = true) ∧
      (tfc shoalDStrue.mask_shoal).1 ≠ 0) ∧
    process_shoals qhav qnasc shoalDStrue =
      .ok [empty_shoal_record "jr230"] :=
  ⟨⟨by decide, by decide⟩,
    (claim_C10_all_true_mask_placeholder qhav qnasc shoalDStrue
      (by decide)).2⟩

end OceanStream

namespace OceanStream

/-! ## C2: connected-component lemmas -/

section ComponentLemmas

variable {V : Type} [Fintype V] [DecidableEq V]
variable {g : V → Bool} {adj : V → V → Bool} {x y : V}

theorem subset_stepSet (S : Finset V) : S ⊆ stepSet g adj S :=
  Finset.subset_union_left

theorem subset_iterate (S : Finset V) (n : Nat) :
    S ⊆ (stepSet g adj)^[n] S := by
  induction n with
  | zero => simp
  | succ n ih =>
      rw [Function.iterate_succ_apply']
      exact ih.trans (subset_stepSet _)

theorem mem_iterate_g (hx : g x = true) :
    ∀ n (y : V), y ∈ (stepSet g adj)^[n] ({x} : Finset V) → g y = true := by
  intro n
  induction n with
  | zero =>
      intro y hy
      rw [Function.iterate_zero_apply, Finset.mem_singleton] at hy
      rw [hy]
      exact hx
  | succ n ih =>
      intro y hy
      rw [Function.iterate_succ_apply'] at hy
      rcases Finset.mem_union.mp hy with h | h
      · exact ih y h
      · exact (Finset.mem_filter.mp h).2.1

theorem mem_iterate_reaches (hx : g x = true) :
    ∀ n (y : V), y ∈ (stepSet g adj)^[n] ({x} : Finset V) →
      Reaches g adj x y := by
  intro n
  induction n with
  | zero =>
      intro y hy
      rw [Function.iterate_zero_apply, Finset.mem_singleton] at hy
      rw [hy]
      exact Relation.ReflTransGen.refl
  | succ n ih =>
      intro y hy
      rw [Function.iterate_succ_apply'] at hy
      rcases Finset.mem_union.mp hy with h | h
      · exact ih y h
      · obtain ⟨-, hgy, c, hc, hadj⟩ := Finset.mem_filter.mp h
        exact (ih c hc).tail ⟨mem_iterate_g hx n c hc, hgy, hadj⟩

theorem reaches_mem_of_fixed {S : Finset V}
    (hfix : stepSet g adj S = S) (h : Reaches g adj x y) (hx : x ∈ S) :
    y ∈ S := by
  induction h with
  | refl => exact hx
  | tail _ h2 ih =>
      rw [← hfix]
      apply Finset.mem_union_right
      rw [Finset.mem_filter]
      exact ⟨Finset.mem_univ _, h2.2.1, _, ih, h2.2.2⟩

theorem iterate_stab {S : Finset V} {n : Nat}
    (h : stepSet g adj ((stepSet g adj)^[n] S) = (stepSet g adj)^[n] S) :
    ∀ k, (stepSet g adj)^[n + k] S = (stepSet g adj)^[n] S := by
  intro k
  induction k with
  | zero => rfl
  | succ k ih =>
      rw [show n + (k + 1) = (n + k) + 1 from rfl,
        Function.iterate_succ_apply', ih, h]

theorem card_iterate_of_not_fixed {S : Finset V} :
    ∀ n, (∀ m, m < n →
        stepSet g adj ((stepSet g adj)^[m] S) ≠ (stepSet g adj)^[m] S) →
      S.card + n ≤ ((stepSet g adj)^[n] S).card := by
  intro n
  induction n with
  | zero => intro _; simp
  | succ n ih =>
      intro h
      have h1 := ih (fun m hm => h m (hm.trans (Nat.lt_succ_self n)))
      have h2 : ((stepSet g adj)^[n] S).card <
          ((stepSet g adj)^[n + 1] S).card := by
        rw [Function.iterate_succ_apply']
        exact Finset.card_lt_card
          ((subset_stepSet _).ssubset_of_ne
            (Ne.symm (h n (Nat.lt_succ_self n))))
      omega

theorem stepSet_component_fixed (x : V) :
    stepSet g adj (component g adj x) = component g adj x := by
  unfold component
  by_contra hne
  have hall : ∀ m, m < Fintype.card V →
      stepSet g adj ((stepSet g adj)^[m] ({x} : Finset V)) ≠
        (stepSet g adj)^[m] ({x} : Finset V) := by
    intro m hm hfix
    have h1 := iterate_stab hfix (Fintype.card V - m)
    rw [show m + (Fintype.card V - m) = Fintype.card V by omega] at h1
    exact hne (by rw [h1, hfix])
  have h2 := card_iterate_of_not_fixed (Fintype.card V) hall
  have h3 : ((stepSet g adj)^[Fintype.card V] ({x} : Finset V)).card ≤
      Fintype.card V := Finset.card_le_univ _
  have h4 : ({x} : Finset V).card = 1 := Finset.card_singleton x
  omega

theorem mem_component_iff (hx : g x = true) (y : V) :
    y ∈ component g adj x ↔ Reaches g adj x y := by
  constructor
  · exact mem_iterate_reaches hx (Fintype.card V) y
  · intro h
    exact reaches_mem_of_fixed (stepSet_component_fixed x) h
      (subset_iterate {x} (Fintype.card V) (Finset.mem_singleton_self x))

theorem reaches_g (h : Reaches g adj x y) (hx : g x = true) : g y = true := by
  induction h with
  | refl => exact hx
  | tail _ h2 _ => exact h2.2.1

theorem reaches_symm (hsym : ∀ a b, adj a b = adj b a)
    (h : Reaches g adj x y) : Reaches g adj y x := by
  induction h with
  | refl => exact .refl
  | tail _ h2 ih =>
      exact Relation.ReflTransGen.trans
        (Relation.ReflTransGen.single
          ⟨h2.2.1, h2.1, by rw [hsym]; exact h2.2.2⟩) ih

theorem component_eq_of_reaches (hsym : ∀ a b, adj a b = adj b a)
    (hx : g x = true) (h : Reaches g adj x y) :
    component g adj x = component g adj y := by
  have hy : g y = true := reaches_g h hx
  ext z
  rw [mem_component_iff hx, mem_component_iff hy]
  exact ⟨fun hz => Relation.ReflTransGen.trans (reaches_symm hsym h) hz,
    fun hz => Relation.ReflTransGen.trans h hz⟩

end ComponentLemmas

end OceanStream

namespace OceanStream

section LabelLemmas

variable {V : Type} [Fintype V] [DecidableEq V]
variable {g : V → Bool} {adj : V → V → Bool} {enum : List V}

theorem componentList_foldl_mem (C : Finset V) :
    ∀ (l : List V) (acc : List (Finset V)),
      (C ∈ l.foldl
        (fun acc v =>
          if g v = true ∧ component g adj v ∉ acc then
            acc ++ [component g adj v]
          else acc) acc ↔
        C ∈ acc ∨ ∃ v ∈ l, g v = true ∧ C = component g adj v) := by
  intro l
  induction l with
  | nil => intro acc; simp
  | cons w l ih =>
      intro acc
      rw [List.foldl_cons, ih]
      by_cases hw : g w = true ∧ component g adj w ∉ acc
      · rw [if_pos hw]
        constructor
        · rintro (hC | ⟨v, hv, hgv, hCv⟩)
          · rcases List.mem_append.mp hC with h | h
            · exact Or.inl h
            · rw [List.mem_singleton] at h
              exact Or.inr ⟨w, List.mem_cons_self w l, hw.1, h⟩
          · exact Or.inr ⟨v, List.mem_cons_of_mem w hv, hgv, hCv⟩
        · rintro (hC | ⟨v, hv, hgv, hCv⟩)
          · exact Or.inl (List.mem_append_left _ hC)
          · rcases List.mem_cons.mp hv with rfl | hv2
            · exact Or.inl (List.mem_append_right _
                (by rw [List.mem_singleton]; exact hCv))
            · exact Or.inr ⟨v, hv2, hgv, hCv⟩
      · rw [if_neg hw]
        constructor
        · rintro (hC | ⟨v, hv, hgv, hCv⟩)
          · exact Or.inl hC
          · exact Or.inr ⟨v, List.mem_cons_of_mem w hv, hgv, hCv⟩
        · rintro (hC | ⟨v, hv, hgv, hCv⟩)
          · exact Or.inl hC
          · rcases List.mem_cons.mp hv with rfl | hv2
            · rw [hCv]
              by_cases hmem : component g adj v ∈ acc
              · exact Or.inl hmem
              · exact absurd ⟨hgv, hmem⟩ hw
            · exact Or.inr ⟨v, hv2, hgv, hCv⟩

theorem componentList_foldl_nodup :
    ∀ (l : List V) (acc : List (Finset V)), acc.Nodup →
      (l.foldl
        (fun acc v =>
          if g v = true ∧ component g adj v ∉ acc then
            acc ++ [component g adj v]
          else acc) acc).Nodup := by
  intro l
  induction l with
  | nil => exact fun acc h => h
  | cons w l ih =>
      intro acc hacc
      rw [List.foldl_cons]
      apply ih
      by_cases hw : g w = true ∧ component g adj w ∉ acc
      · rw [if_pos hw]
        rw [List.nodup_append]
        exact ⟨hacc, List.nodup_singleton _,
          fun a ha hb => hw.2 (by rwa [← List.mem_singleton.mp hb])⟩
      · rw [if_neg hw]
        exact hacc

theorem mem_componentList_iff (henum : ∀ v : V, v ∈ enum) (C : Finset V) :
    C ∈ componentList g adj enum ↔
      ∃ v, g v = true ∧ C = component g adj v := by
  unfold componentList
  rw [componentList_foldl_mem]
  constructor
  · rintro (h | ⟨v, -, hgv, hCv⟩)
    · cases h
    · exact ⟨v, hgv, hCv⟩
  · rintro ⟨v, hgv, hCv⟩
    exact Or.inr ⟨v, henum v, hgv, hCv⟩

theorem componentList_nodup : (componentList g adj enum).Nodup :=
  componentList_foldl_nodup enum [] List.nodup_nil

theorem numFeatures_eq_card_image (henum : ∀ v : V, v ∈ enum) :
    numFeatures g adj enum =
      ((Finset.univ.filter fun v => g v = true).image
        (component g adj)).card := by
  have h1 : (componentList g adj enum).toFinset =
      (Finset.univ.filter fun v => g v = true).image (component g adj) := by
    ext C
    rw [List.mem_toFinset, mem_componentList_iff henum, Finset.mem_image]
    constructor
    · rintro ⟨v, hgv, hCv⟩
      exact ⟨v, Finset.mem_filter.mpr ⟨Finset.mem_univ v, hgv⟩, hCv.symm⟩
    · rintro ⟨v, hv, hCv⟩
      exact ⟨v, (Finset.mem_filter.mp hv).2, hCv.symm⟩
  rw [numFeatures, ← h1, List.toFinset_card_of_nodup componentList_nodup]

theorem labelArr_eq_succ_iff (i : Nat) (y : V) :
    labelArr g adj enum y = i + 1 ↔
      g y = true ∧
        (componentList g adj enum).indexOf (component g adj y) = i := by
  unfold labelArr
  by_cases hy : g y = true
  · rw [if_pos hy]
    constructor
    · intro h
      exact ⟨hy, by omega⟩
    · rintro ⟨-, h⟩
      rw [h]
  · rw [if_neg hy]
    constructor
    · intro h
      omega
    · rintro ⟨hgy, -⟩
      exact absurd hgy hy

end LabelLemmas

theorem natAdj_symm {a b : Nat} (h : natAdj a b) : natAdj b a := Or.symm h

theorem cellAdj_symm {c p r : Nat} (x y : Cell c p r) :
    cellAdj x y = cellAdj y x := by
  unfold cellAdj
  rw [Bool.eq_iff_iff, decide_eq_true_eq, decide_eq_true_eq]
  constructor
  · rintro (⟨h1, h2, h3⟩ | ⟨h1, h2, h3⟩ | ⟨h1, h2, h3⟩)
    · exact Or.inl ⟨h1.symm, h2.symm, natAdj_symm h3⟩
    · exact Or.inr (Or.inl ⟨h1.symm, natAdj_symm h2, h3.symm⟩)
    · exact Or.inr (Or.inr ⟨natAdj_symm h1, h2.symm, h3.symm⟩)
  · rintro (⟨h1, h2, h3⟩ | ⟨h1, h2, h3⟩ | ⟨h1, h2, h3⟩)
    · exact Or.inl ⟨h1.symm, h2.symm, natAdj_symm h3⟩
    · exact Or.inr (Or.inl ⟨h1.symm, natAdj_symm h2, h3.symm⟩)
    · exact Or.inr (Or.inr ⟨natAdj_symm h1, h2.symm, h3.symm⟩)

theorem mem_cellList {c p r : Nat} (x : Cell c p r) : x ∈ cellList c p r := by
  obtain ⟨a, b, d⟩ := x
  unfold cellList
  rw [List.mem_flatMap]
  refine ⟨a, List.mem_finRange a, ?_⟩
  rw [List.mem_flatMap]
  exact ⟨b, List.mem_finRange b,
    List.mem_map.mpr ⟨d, List.mem_finRange d, rfl⟩⟩

end OceanStream

namespace OceanStream

/-- C2: for a dataset whose `mask_shoal` has n > 0 connected
True-regions (rank-1 connectivity over the full volume, as
`scipy.ndimage.label` uses), `split_shoal_mask` returns exactly n
sub-masks over the full volume, labelled 1..n in order; the i-th
sub-mask is True exactly on one connected component (the cells
reachable from some True cell), distinct sub-masks are disjoint, and
their union is exactly the set of True cells of `mask_shoal`. -/
theorem claim_C2_split_shoal_components {c p r : Nat} (ds : ShoalDS c p r)
    (hn : 0 < numFeatures ds.mask_shoal cellAdj (cellList c p r)) :
    (split_shoal_mask ds).length =
      ((Finset.univ.filter fun v => ds.mask_shoal v = true).image
        (component ds.mask_shoal cellAdj)).card ∧
    (∀ i (hi : i < (split_shoal_mask ds).length),
      ((split_shoal_mask ds).get ⟨i, hi⟩).label = i + 1) ∧
    (∀ i (hi : i < (split_shoal_mask ds).length), ∃ x,
      ds.mask_shoal x = true ∧
      ∀ y, (((split_shoal_mask ds).get ⟨i, hi⟩).data y = true ↔
        Reaches ds.mask_shoal cellAdj x y)) ∧
    (∀ i j (hi : i < (split_shoal_mask ds).length)
        (hj : j < (split_shoal_mask ds).length), i ≠ j →
      ∀ y, ¬(((split_shoal_mask ds).get ⟨i, hi⟩).data y = true ∧
        ((split_shoal_mask ds).get ⟨j, hj⟩).data y = true)) ∧
    (∀ y, ds.mask_shoal y = true ↔
      ∃ i, ∃ hi : i < (split_shoal_mask ds).length,
        ((split_shoal_mask ds).get ⟨i, hi⟩).data y = true) := by
  have henum : ∀ v : Cell c p r, v ∈ cellList c p r := mem_cellList
  have h_len : (split_shoal_mask ds).length =
      (componentList ds.mask_shoal cellAdj (cellList c p r)).length := by
    unfold split_shoal_mask
    rw [List.length_map, List.length_range]
    rfl
  have h_get : ∀ i (hi : i < (split_shoal_mask ds).length),
      (split_shoal_mask ds).get ⟨i, hi⟩ =
        { data := fun cell =>
            decide (labelArr ds.mask_shoal cellAdj (cellList c p r) cell = i + 1)
          label := i + 1 } := by
    intro i hi
    unfold split_shoal_mask
    unfold split_shoal_mask at hi
    rw [List.get_eq_getElem, List.getElem_map, List.getElem_range]
  have h_data : ∀ i (hi : i < (split_shoal_mask ds).length) (y : Cell c p r),
      ((split_shoal_mask ds).get ⟨i, hi⟩).data y = true ↔
        labelArr ds.mask_shoal cellAdj (cellList c p r) y = i + 1 := by
    intro i hi y
    rw [h_get i hi]
    exact decide_eq_true_iff
  refine ⟨h_len.trans (numFeatures_eq_card_image henum), ?_, ?_, ?_, ?_⟩
  · intro i hi
    rw [h_get i hi]
  · intro i hi
    have hi2 : i < (componentList ds.mask_shoal cellAdj (cellList c p r)).length := by
      rw [← h_len]; exact hi
    have hC : (componentList ds.mask_shoal cellAdj (cellList c p r)).get ⟨i, hi2⟩ ∈
        componentList ds.mask_shoal cellAdj (cellList c p r) :=
      List.get_mem _ _ hi2
    obtain ⟨x, hgx, hCx⟩ := (mem_componentList_iff henum _).mp hC
    refine ⟨x, hgx, ?_⟩
    intro y
    rw [h_data i hi y, labelArr_eq_succ_iff]
    constructor
    · rintro ⟨hgy, hidx⟩
      have hmem : component ds.mask_shoal cellAdj y ∈
          componentList ds.mask_shoal cellAdj (cellList c p r) :=
        (mem_componentList_iff henum _).mpr ⟨y, hgy, rfl⟩
      have hlt : (componentList ds.mask_shoal cellAdj (cellList c p r)).indexOf
          (component ds.mask_shoal cellAdj y) <
          (componentList ds.mask_shoal cellAdj (cellList c p r)).length :=
        List.indexOf_lt_length.mpr hmem
      have hgot := List.indexOf_get (a := component ds.mask_shoal cellAdj y)
        (l := componentList ds.mask_shoal cellAdj (cellList c p r)) hlt
      have hcomp_eq : component ds.mask_shoal cellAdj y =
          component ds.mask_shoal cellAdj x := by
        have h2 : (componentList ds.mask_shoal cellAdj (cellList c p r)).get
            ⟨i, hi2⟩ = component ds.mask_shoal cellAdj y := by
          rw [← hgot]
          congr 1
          exact (Fin.ext hidx.symm)
        rw [← h2, ← hCx]
      have hy_self : y ∈ component ds.mask_shoal cellAdj y :=
        (mem_component_iff hgy y).mpr Relation.ReflTransGen.refl
      rw [hcomp_eq] at hy_self
      exact (mem_component_iff hgx y).mp hy_self
    · intro h
      have hgy : ds.mask_shoal y = true := reaches_g h hgx
      have hcomp_eq : component ds.mask_shoal cellAdj x =
          component ds.mask_shoal cellAdj y :=
        component_eq_of_reaches cellAdj_symm hgx h
      refine ⟨hgy, ?_⟩
      rw [← hcomp_eq, ← hCx]
      have := List.indexOf_getElem componentList_nodup i hi2
      rw [List.get_eq_getElem]
      exact this
  · intro i j hi hj hij y
    rintro ⟨h1, h2⟩
    rw [h_data i hi y] at h1
    rw [h_data j hj y] at h2
    omega
  · intro y
    constructor
    · intro hgy
      have hmem : component ds.mask_shoal cellAdj y ∈
          componentList ds.mask_shoal cellAdj (cellList c p r) :=
        (mem_componentList_iff henum _).mpr ⟨y, hgy, rfl⟩
      have hlt : (componentList ds.mask_shoal cellAdj (cellList c p r)).indexOf
          (component ds.mask_shoal cellAdj y) <
          (componentList ds.mask_shoal cellAdj (cellList c p r)).length :=
        List.indexOf_lt_length.mpr hmem
      refine ⟨(componentList ds.mask_shoal cellAdj (cellList c p r)).indexOf
        (component ds.mask_shoal cellAdj y), by rw [h_len]; exact hlt, ?_⟩
      rw [h_data _ _ y, labelArr_eq_succ_iff]
      exact ⟨hgy, rfl⟩
    · rintro ⟨i, hi, hdata⟩
      rw [h_data i hi y, labelArr_eq_succ_iff] at hdata
      exact hdata.1

/-- C2 witness: a volume with two disjoint True rectangles separated by
False yields exactly 2 sub-masks with labels 1 and 2. -/
theorem claim_C2_witness :
    (0 < numFeatures twoRectDS.mask_shoal cellAdj (cellList 1 4 3) ∧
      (split_shoal_mask twoRectDS).length = 2 ∧
      (split_shoal_mask twoRectDS).map (fun m => m.label) = [1, 2]) ∧
    (split_shoal_mask twoRectDS).length =
      ((Finset.univ.filter fun v => twoRectDS.mask_shoal v = true).image
        (component twoRectDS.mask_shoal cellAdj)).card :=
  ⟨⟨by decide, by decide, by decide⟩,
    (claim_C2_split_shoal_components twoRectDS (by decide)).1⟩

end OceanStream

namespace OceanStream

/-! ## C9: interpolation output variable -/

theorem lookup_map_replace_self {γ : Type} (l : List (String × γ))
    (name : String) (v : γ) (h : l.any (fun kv => kv.1 = name) = true) :
    (l.map (fun kv => if kv.1 = name then (name, v) else kv)).lookup name =
      some v := by
  induction l with
  | nil => cases h
  | cons x l ih =>
      obtain ⟨xk, xv⟩ := x
      rw [List.map_cons]
      by_cases hx : xk = name
      · rw [if_pos (show (xk, xv).1 = name from hx), List.lookup_cons,
          show (name == name) = true from beq_self_eq_true name]
      · rw [if_neg (show ¬((xk, xv).1 = name) from hx), List.lookup_cons,
          show (name == xk) = false from
            beq_eq_false_iff_ne.mpr (fun hh => hx hh.symm)]
        apply ih
        rw [List.any_cons] at h
        simpa [hx] using h

theorem lookup_map_replace_ne {γ : Type} (l : List (String × γ))
    (name k : String) (v : γ) (hk : k ≠ name) :
    (l.map (fun kv => if kv.1 = name then (name, v) else kv)).lookup k =
      l.lookup k := by
  induction l with
  | nil => rfl
  | cons x l ih =>
      obtain ⟨xk, xv⟩ := x
      rw [List.map_cons]
      by_cases hx : xk = name
      · rw [if_pos (show (xk, xv).1 = name from hx), List.lookup_cons,
          List.lookup_cons,
          show (k == name) = false from beq_eq_false_iff_ne.mpr hk,
          show (k == xk) = false from
            beq_eq_false_iff_ne.mpr (fun h => hk (h.trans hx))]
        exact ih
      · rw [if_neg (show ¬((xk, xv).1 = name) from hx), List.lookup_cons,
          List.lookup_cons]
        cases k == xk
        · exact ih
        · rfl

theorem lookup_append_single_self {γ : Type} (l : List (String × γ))
    (name : String) (v : γ) :
    (l ++ [(name, v)]).lookup name = some v ∨
      (∃ w, l.lookup name = some w ∧ (l ++ [(name, v)]).lookup name = some w) := by
  induction l with
  | nil =>
      left
      rw [List.nil_append, List.lookup_cons, beq_self_eq_true name]
  | cons x l ih =>
      obtain ⟨xk, xv⟩ := x
      rw [List.cons_append, List.lookup_cons]
      cases hx : name == xk
      · rcases ih with h | ⟨w, hw1, hw2⟩
        · left
          exact h
        · right
          exact ⟨w, by rw [List.lookup_cons, hx]; exact hw1, hw2⟩
      · right
        exact ⟨xv, by rw [List.lookup_cons, hx], rfl⟩

theorem lookup_append_single_ne {γ : Type} (l : List (String × γ))
    (name k : String) (v : γ) (hk : k ≠ name) :
    (l ++ [(name, v)]).lookup k = l.lookup k := by
  induction l with
  | nil =>
      rw [List.nil_append, List.lookup_cons,
        show (k == name) = false from beq_eq_false_iff_ne.mpr hk]
  | cons x l ih =>
      obtain ⟨xk, xv⟩ := x
      rw [List.cons_append, List.lookup_cons, List.lookup_cons]
      cases k == xk
      · exact ih
      · rfl

/-- If a key is absent (`any` is false), its lookup fails. -/
theorem lookup_eq_none_of_any_false {γ : Type} (l : List (String × γ))
    (name : String) (h : l.any (fun kv => kv.1 = name) = false) :
    l.lookup name = none := by
  induction l with
  | nil => rfl
  | cons x l ih =>
      obtain ⟨xk, xv⟩ := x
      rw [List.any_cons] at h
      rw [List.lookup_cons]
      have hx : ¬(xk = name) := by
        intro hh
        simp [hh] at h
      rw [show (name == xk) = false from
        beq_eq_false_iff_ne.mpr (fun hh => hx hh.symm)]
      apply ih
      simpa [hx] using h

theorem lookup_setVar_self {γ : Type} (vars : List (String × γ))
    (name : String) (v : γ) :
    (setVar vars name v).lookup name = some v := by
  unfold setVar
  by_cases hany : vars.any (fun kv => kv.1 = name) = true
  · rw [if_pos hany]
    exact lookup_map_replace_self vars name v hany
  · rw [if_neg hany]
    rcases lookup_append_single_self vars name v with h | ⟨w, hw1, hw2⟩
    · exact h
    · rw [lookup_eq_none_of_any_false vars name
        (Bool.eq_false_iff.mpr hany)] at hw1
      cases hw1
  
theorem lookup_setVar_ne {γ : Type} (vars : List (String × γ))
    (name k : String) (v : γ) (hk : k ≠ name) :
    (setVar vars name v).lookup k = vars.lookup k := by
  unfold setVar
  by_cases hany : vars.any (fun kv => kv.1 = name) = true
  · rw [if_pos hany]
    exact lookup_map_replace_ne vars name k v hk
  · rw [if_neg hany]
    exact lookup_append_single_ne vars name k v hk

/-- C9 (amended): `interpolate_sv` processes each channel independently
(dB → linear, interpolate along ping_time, optional edge fill, linear →
dB) but stores the result in the NEW variable `"Sv_interpolated"`; the
primary variable `"Sv"` keeps the original pre-interpolation values
(the caller renames afterwards, as the repository's own fixtures do). -/
theorem claim_C9_interpolation_new_variable {c p r : Nat}
    (interpolate_na : String → (Fin p → ℝ) → (Fin p → Option ℝ) →
      (Fin p → Option ℝ))
    (sv_ds : InterpDS c p r) (method : String) (with_edge_fill : Bool)
    (sv : Fin c → Fin p → Fin r → Option ℝ)
    (h : sv_ds.vars.lookup "Sv" = some sv) :
    interpolate_sv interpolate_na sv_ds method with_edge_fill =
      .ok { vars := setVar sv_ds.vars "Sv_interpolated"
              (interpolate_channels interpolate_na sv_ds.ping_time sv
                method with_edge_fill)
            ping_time := sv_ds.ping_time } ∧
    (∀ ds2, interpolate_sv interpolate_na sv_ds method with_edge_fill =
        .ok ds2 →
      ds2.vars.lookup "Sv" = some sv ∧
      ds2.vars.lookup "Sv_interpolated" =
        some (interpolate_channels interpolate_na sv_ds.ping_time sv
          method with_edge_fill)) ∧
    (∀ (sv2 : Fin c → Fin p → Fin r → Option ℝ) (channel : Fin c),
      sv channel = sv2 channel →
      interpolate_channels interpolate_na sv_ds.ping_time sv method
          with_edge_fill channel =
        interpolate_channels interpolate_na sv_ds.ping_time sv2 method
          with_edge_fill channel) := by
  have h1 : interpolate_sv interpolate_na sv_ds method with_edge_fill =
      .ok { vars := setVar sv_ds.vars "Sv_interpolated"
              (interpolate_channels interpolate_na sv_ds.ping_time sv
                method with_edge_fill)
            ping_time := sv_ds.ping_time } := by
    unfold interpolate_sv
    rw [h]
  refine ⟨h1, ?_, ?_⟩
  · intro ds2 h2
    rw [h1] at h2
    injection h2 with h3
    rw [← h3]
    constructor
    · show (setVar sv_ds.vars "Sv_interpolated" _).lookup "Sv" = some sv
      rw [lookup_setVar_ne _ _ _ _ (by decide)]
      exact h
    · exact lookup_setVar_self _ _ _
  · intro sv2 channel hch
    unfold interpolate_channels
    rw [hch]

/-- C9 counterexample: on a concrete dataset with a missing sample, the
call leaves the original values (missing sample included) under `"Sv"`
and stores the interpolated values (the sample now present) under
`"Sv_interpolated"` — so the claim that the variable `"Sv"` is
overwritten and the original values are no longer under the primary
name is false. -/
theorem claim_C9_counterexample :
    (interpolate_sv interpNAfill interpDS0 "linear" false).map
        (fun d => d.vars.lookup "Sv") = .ok (some sv0) ∧
    sv0 0 1 0 = none ∧
    (interpolate_sv interpNAfill interpDS0 "linear" false).map
        (fun d => (d.vars.lookup "Sv_interpolated").map
          (fun f => (f 0 1 0).isSome)) = .ok (some true) := by
  refine ⟨rfl, rfl, rfl⟩

/-- C9 witness: the amended theorem applied to the concrete dataset. -/
theorem claim_C9_witness :
    interpDS0.vars.lookup "Sv" = some sv0 ∧
    interpolate_sv interpNAfill interpDS0 "linear" false =
      .ok { vars := setVar interpDS0.vars "Sv_interpolated"
              (interpolate_channels interpNAfill interpDS0.ping_time sv0
                "linear" false)
            ping_time := interpDS0.ping_time } :=
  ⟨rfl, (claim_C9_interpolation_new_variable interpNAfill interpDS0
    "linear" false sv0 rfl).1⟩

end OceanStream
